import Mathlib

/-!
# Verification of the JDM_Forecaster listing harvester (`src/scraper.py`)

Shallow embedding of the concurrent listing harvester:

* strings are modelled as `List Char` (ASCII/single-byte scope: percent
  encoding is modelled at the byte level, one `%HH` escape per character
  with code point < 256);
* Python `float` arithmetic on prices is idealised as exact rational
  arithmetic (`Rat`), with `int()` truncation toward zero (`pyInt`);
* BeautifulSoup DOM queries are abstracted: a `Container` records exactly
  the data the scraper reads from one listing container (flattened text,
  text of the first price/fob-classed sub-element, href of the first
  anchor, text of the first grade-classed `<p>`), and container discovery
  (`soup.find_all`, lines 80–82, including the primary/secondary class
  fallback) is an abstract function `markup → List Container` that the
  theorems quantify over;
* the `asyncio` fan-out (`asyncio.gather` of `monitored_fetch` tasks,
  lines 200–212) is modelled as sequential completion in task order; the
  shared progress counter increments once per completed page either way;
* network outcomes (`aiohttp` responses/exceptions) are modelled by the
  inductives `RateResponse` and `FetchResponse`, supplied by an
  environment function.
-/

/-- A log message (`logs` entries are Python strings). -/
abbrev Msg := List Char

/-- Python `\w` word character, ASCII scope (letters, digits, underscore). -/
def isWordChar (c : Char) : Bool := c.isAlphanum || c == '_'

/-- Characters matched by the regex class `[\d,]`. -/
def digitOrComma (c : Char) : Bool := c.isDigit || c == ','

/-- Numeric value of a list of decimal digit characters (Python `int` on a
digit string). -/
def digitsToNat (ds : List Char) : Nat :=
  ds.foldl (fun a c => a * 10 + (c.toNat - '0'.toNat)) 0

/-- Word-boundary test (`\b`) on the left of a match position: `prev` is the
character immediately before the position (`none` at the start of the text). -/
def boundaryB (prev : Option Char) : Bool :=
  match prev with
  | none => true
  | some c => !isWordChar c

/-- Word-boundary test (`\b`) on the right of a match: `rest` is the text
after the matched token. -/
def boundaryA (rest : List Char) : Bool :=
  match rest with
  | [] => true
  | c :: _ => !isWordChar c

/-- The alternation `(198\d|199\d|200\d|201\d|202\d)` of the year regex at
line 94 plus the trailing word boundary: true iff the text starts with a
plausible model-year token. -/
def yearMatch : List Char → Bool
  | d1 :: d2 :: d3 :: d4 :: rest =>
    d4.isDigit &&
      ((d1 == '1' && d2 == '9' && (d3 == '8' || d3 == '9')) ||
       (d1 == '2' && d2 == '0' && (d3 == '0' || d3 == '1' || d3 == '2'))) &&
      boundaryA rest
  | _ => false

/-- Leftmost-match scan of `re.search(r'\b(198\d|199\d|200\d|201\d|202\d)\b', t)`
(line 94): `prev` carries the character before the current position for the
left word boundary. -/
def findYearAux (prev : Option Char) : List Char → Option Nat
  | [] => none
  | c :: rest =>
    if boundaryB prev && yearMatch (c :: rest) then
      some (digitsToNat ((c :: rest).take 4))
    else
      findYearAux (some c) rest

/-- Year extraction (line 94–95): value of the first plausible model-year
token, word-bounded on both sides. -/
def findYear (t : List Char) : Option Nat := findYearAux none t

/-- Case-insensitive literal match: `kw` (given lowercase) is a prefix of `s`
up to `Char.toLower`. -/
def lowerMatch : List Char → List Char → Bool
  | [], _ => true
  | _ :: _, [] => false
  | k :: ks, c :: cs => k == c.toLower && lowerMatch ks cs

/-- Leftmost-match scan of `re.search(r'([\d,]+)\s*UNIT', t, re.IGNORECASE)`
(lines 97 and 100, `UNIT` ∈ {`km`, `cc`}): returns the captured `[\d,]+` run.
Greedy capture with backtracking is equivalent to: maximal digit/comma run,
then maximal whitespace run, then the literal unit (the run characters can
never begin the unit or the whitespace, so backtracking never succeeds where
this scan fails). -/
def findNumUnit (unit : List Char) : List Char → Option (List Char)
  | [] => none
  | c :: rest =>
    if digitOrComma c then
      let run := c :: rest.takeWhile digitOrComma
      if lowerMatch unit ((rest.dropWhile digitOrComma).dropWhile Char.isWhitespace) then
        some run
      else findNumUnit unit rest
    else findNumUnit unit rest

/-- Numeric field with a unit suffix (lines 97–98 and 100–101):
`int(match.group(1).replace(',', ''))` if the regex matched, else the
default `0`.  Returns `none` when the captured run is all commas, modelling
the `ValueError` that `int('')` raises (caught by the per-container
`except`). -/
def numUnitField (unit : List Char) (t : List Char) : Option Nat :=
  match findNumUnit unit t with
  | none => some 0
  | some run =>
    let ds := run.filter (fun c => !(c == ','))
    if ds = [] then none else some (digitsToNat ds)

/-- Leftmost-match scan of `re.search(r'US\$\s*([\d,]+)', t)` (line 66):
returns the captured `[\d,]+` run after the literal `US$` and optional
whitespace. -/
def findUSD : List Char → Option (List Char)
  | [] => none
  | c :: rest =>
    if c = 'U' then
      match rest with
      | 'S' :: '$' :: rest2 =>
        let run := (rest2.dropWhile Char.isWhitespace).takeWhile digitOrComma
        if run = [] then findUSD rest else some run
      | _ => findUSD rest
    else findUSD rest

/-- Keyword-presence scan of `re.search(r'\b(K1|K2|...)\b', t, re.IGNORECASE)`
(lines 103–104): true iff some alternative (given lowercase) occurs with word
boundaries on both sides. -/
def kwSearchAux (kws : List (List Char)) (prev : Option Char) : List Char → Bool
  | [] => false
  | c :: rest =>
    (boundaryB prev &&
      kws.any (fun kw => lowerMatch kw (c :: rest) && boundaryA ((c :: rest).drop kw.length))) ||
    kwSearchAux kws (some c) rest

/-- Keyword presence over a whole text. -/
def kwSearch (kws : List (List Char)) (t : List Char) : Bool := kwSearchAux kws none t

/-- Alternatives of the manual-transmission regex `\b(MT|Manual|F5|F6|5MT|6MT)\b`
(line 103), lowercase. -/
def mtKeywords : List (List Char) :=
  ["mt".toList, "manual".toList, "f5".toList, "f6".toList, "5mt".toList, "6mt".toList]

/-- Alternatives of the four-wheel-drive regex `\b(4WD|AWD)\b` (line 104),
lowercase. -/
def wdKeywords : List (List Char) := ["4wd".toList, "awd".toList]

/-- One listing container, holding exactly the data the scraper reads from it:
`fullText` is `container.get_text(separator=' ', strip=True)` (line 86);
`priceTagText` is the stripped text of the first `p`/`span`/`div` whose class
matches `(price|fob)` (line 60), if any; `linkHref` is the href of the first
anchor with an href (lines 87–88); `gradeText` is the stripped text of the
first `p` whose class matches `grade` (line 106). -/
structure Container where
  fullText : List Char
  priceTagText : Option (List Char)
  linkHref : Option (List Char)
  gradeText : Option (List Char)
deriving DecidableEq

/-- One emitted listing record (the dict built at lines 110–114). -/
structure Record where
  price : Int
  year : Option Nat
  mileage : Nat
  engine_capacity : Nat
  transmission : List Char
  drive : List Char
  grade : List Char
  mark : List Char
  model : List Char
  link : Option (List Char)
deriving DecidableEq

/-- Python `int()` on an exact rational: truncation toward zero.  `Rat` is
stored normalized with positive denominator, so this is T-division of the
numerator by the denominator. -/
def pyInt (q : Rat) : Int := Int.tdiv q.num (Int.ofNat q.den)

/-- The `price_usd` computation of `extract_price` (lines 58–68): dedicated
price-labeled sub-element first (digits-only extraction, line 60–63); if that
yields 0, the `US\$\s*([\d,]+)` regex over the flattened text (lines 65–68).
`none` models the `ValueError` of `int('')` when the regex capture is all
commas. -/
def extract_usd (container : Container) (text_content : List Char) : Option Nat :=
  let fromTag : Nat :=
    match container.priceTagText with
    | some t =>
      let digits := t.filter Char.isDigit
      if digits = [] then 0 else digitsToNat digits
    | none => 0
  if fromTag = 0 then
    match findUSD text_content with
    | some grp =>
      let ds := grp.filter (fun c => !(c == ','))
      if ds = [] then none else some (digitsToNat ds)
    | none => some 0
  else some fromTag

/-- `extract_price` (lines 57–72): source-currency amount converted with the
exchange rate, rescaled to thousands with `int()` truncation; `0` when no
positive source amount was found; `none` models the propagated `ValueError`. -/
def extract_price (container : Container) (text_content : List Char)
    (exchange_rate : Rat) : Option Int :=
  match extract_usd container text_content with
  | none => none
  | some price_usd =>
    if 0 < price_usd then
      some (pyInt ((price_usd : Rat) * exchange_rate / 1000))
    else some 0

/-- Truthiness of the `year` variable in `if price > 0 and year:` (line 109):
a Python `int` or `None`, truthy iff present and nonzero. -/
def yearTruthy (y : Option Nat) : Bool :=
  match y with
  | some n => !(n == 0)
  | none => false

/-- The body of the per-container `try` block (lines 85–114) for one
container: `none` when the container is skipped (either a `ValueError`
escaped to the per-container `except`, or the validation gate
`price > 0 and year` failed). -/
def processContainer (exchange_rate : Rat) (target_mark target_model : List Char)
    (container : Container) : Option Record :=
  let full_text := container.fullText
  let car_link : Option (List Char) :=
    match container.linkHref with
    | none => none
    | some h => some (if "http".toList.isPrefixOf h then h else "https://www.tc-v.com".toList ++ h)
  match extract_price container full_text exchange_rate with
  | none => none
  | some price =>
    let year := findYear full_text
    match numUnitField "km".toList full_text with
    | none => none
    | some mileage =>
      match numUnitField "cc".toList full_text with
      | none => none
      | some engine =>
        let is_mt := kwSearch mtKeywords full_text
        let is_4wd := kwSearch wdKeywords full_text
        let grade :=
          match container.gradeText with
          | some g => g
          | none => "Unknown".toList
        if 0 < price && yearTruthy year then
          some { price := price, year := year, mileage := mileage,
                 engine_capacity := engine,
                 transmission := if is_mt then "mt".toList else "at".toList,
                 drive := if is_4wd then "4wd".toList else "2wd".toList,
                 grade := grade, mark := target_mark, model := target_model,
                 link := car_link }
        else none

/-- `parse_search_results` (lines 74–118): `[]` for falsy markup (line 75);
otherwise the containers discovered by `soup` (the BeautifulSoup
container-discovery abstraction, lines 77–82) are processed one by one,
skipped containers contributing nothing.  The `logs` parameter is accepted
and never used, as in the source. -/
def parse_search_results (soup : List Char → List Container)
    (html_text : Option (List Char)) (exchange_rate : Rat)
    (target_mark target_model : List Char) (logs : List Msg) : List Record :=
  match html_text with
  | none => []
  | some t =>
    if t = [] then []
    else (soup t).filterMap (processContainer exchange_rate target_mark target_model)

/-! ## Pagination planner (`get_clean_base_url`, `build_pagination_url`, lines 122–165)

`urllib.parse` is modelled at the byte level: `quote_plus`/`unquote_plus`
encode and decode one `%HH` escape per character (faithful for code points
below 256, the scope of real listing URLs), `parse_qs` keeps
`keep_blank_values=False` semantics (pairs without `=` and pairs with an
empty raw value are dropped) and merges duplicate keys into an
insertion-ordered association list, exactly like the Python `dict` it
returns, and `urlencode(..., doseq=True)` re-serializes it.
`urlparse`/`urlunparse` are modelled by the `Url` component structure: the
planner functions transform the `query` component and leave the others
unchanged, as the source does. -/

/-- Decimal digit character (used by the model of Python `str(int)`). -/
def digitChar (n : Nat) : Char :=
  if n = 0 then '0' else if n = 1 then '1' else if n = 2 then '2' else if n = 3 then '3'
  else if n = 4 then '4' else if n = 5 then '5' else if n = 6 then '6' else if n = 7 then '7'
  else if n = 8 then '8' else '9'

/-- Model of Python `str` on a non-negative integer: most-significant digit
first, accumulator style. -/
def natStrAux (n : Nat) (acc : List Char) : List Char :=
  if _h : n < 10 then digitChar (n % 10) :: acc
  else natStrAux (n / 10) (digitChar (n % 10) :: acc)
termination_by n
decreasing_by exact Nat.div_lt_self (by omega) (by omega)

/-- Python `str(n)` for a natural number. -/
def natStr (n : Nat) : List Char := natStrAux n []

/-- Python `str(i)` for an integer. -/
def intStr (i : Int) : List Char :=
  if i < 0 then '-' :: natStr i.natAbs else natStr i.natAbs

/-- Characters `quote_plus` leaves unescaped: ASCII alphanumerics and
`_.-~` (the `always_safe` set with the default empty `safe` argument). -/
def isSafeChar (c : Char) : Bool :=
  c.isAlphanum || c == '_' || c == '.' || c == '-' || c == '~'

/-- Uppercase hexadecimal digit, for `%HH` escapes. -/
def hexDigitChar (n : Nat) : Char :=
  if n = 0 then '0' else if n = 1 then '1' else if n = 2 then '2' else if n = 3 then '3'
  else if n = 4 then '4' else if n = 5 then '5' else if n = 6 then '6' else if n = 7 then '7'
  else if n = 8 then '8' else if n = 9 then '9' else if n = 10 then 'A' else if n = 11 then 'B'
  else if n = 12 then 'C' else if n = 13 then 'D' else if n = 14 then 'E' else 'F'

/-- `quote_plus` on one character: space becomes `+`, safe characters pass
through, everything else becomes a `%HH` escape of its code point (byte-level
model, one escape per character below 256). -/
def quoteChar (c : Char) : List Char :=
  if c = ' ' then ['+']
  else if isSafeChar c then [c]
  else ['%', hexDigitChar (c.toNat / 16 % 16), hexDigitChar (c.toNat % 16)]

/-- `urllib.parse.quote_plus`. -/
def quote_plus (s : List Char) : List Char := (s.map quoteChar).flatten

/-- Value of one hexadecimal digit character, if it is one (conditions written
on code points: 48–57 are `0`–`9`, 65–70 are `A`–`F`, 97–102 are `a`–`f`). -/
def hexVal (c : Char) : Option Nat :=
  if 48 ≤ c.toNat ∧ c.toNat ≤ 57 then some (c.toNat - 48)
  else if 65 ≤ c.toNat ∧ c.toNat ≤ 70 then some (c.toNat - 65 + 10)
  else if 97 ≤ c.toNat ∧ c.toNat ≤ 102 then some (c.toNat - 97 + 10)
  else none

/-- `urllib.parse.unquote_plus`: `+` becomes a space, a `%` followed by two
hexadecimal digits becomes the character with that code, an invalid escape
keeps its `%` literally. -/
def unquote_plus : List Char → List Char
  | [] => []
  | '+' :: rest => ' ' :: unquote_plus rest
  | '%' :: h1 :: h2 :: rest2 =>
    (match hexVal h1, hexVal h2 with
     | some a, some b => Char.ofNat (16 * a + b) :: unquote_plus rest2
     | _, _ => '%' :: unquote_plus (h1 :: h2 :: rest2))
  | c :: rest => c :: unquote_plus rest
termination_by s => s.length
decreasing_by all_goals simp [List.length_cons] <;> omega

/-- Python `str.split('&')`: splits on every `&`, keeping empty pieces. -/
def splitAmp : List Char → List (List Char)
  | [] => [[]]
  | c :: rest =>
    if c = '&' then [] :: splitAmp rest
    else
      match splitAmp rest with
      | [] => [[c]]
      | p :: ps => (c :: p) :: ps

/-- Python `pair.split('=', 1)`: split at the first `=`, `none` when there is
no `=`. -/
def splitEq1 : List Char → Option (List Char × List Char)
  | [] => none
  | c :: rest =>
    if c = '=' then some ([], rest)
    else
      match splitEq1 rest with
      | none => none
      | some (a, b) => some (c :: a, b)

/-- Processing of one `name=value` chunk inside `parse_qsl`: empty chunks,
chunks without `=` and chunks with an empty raw value are dropped
(`keep_blank_values=False`); names and values are unquoted. -/
def parsePairChunk (pair : List Char) : Option (List Char × List Char) :=
  if pair = [] then none
  else
    match splitEq1 pair with
    | none => none
    | some (n, v) => if v = [] then none else some (unquote_plus n, unquote_plus v)

/-- `urllib.parse.parse_qsl` with default arguments. -/
def parse_qsl (s : List Char) : List (List Char × List Char) :=
  (splitAmp s).filterMap parsePairChunk

/-- Appending one `(key, value)` pair to the insertion-ordered association
list that models the `dict` built by `parse_qs`. -/
def qsAdd (d : List (List Char × List (List Char))) (k : List Char) (v : List Char) :
    List (List Char × List (List Char)) :=
  match d with
  | [] => [(k, [v])]
  | kv :: rest => if kv.1 = k then (kv.1, kv.2 ++ [v]) :: rest else kv :: qsAdd rest k v

/-- `urllib.parse.parse_qs`: pairs in order, merged by key. -/
def parse_qs (s : List Char) : List (List Char × List (List Char)) :=
  (parse_qsl s).foldl (fun d kv => qsAdd d kv.1 kv.2) []

/-- Python `'&'.join(parts)`. -/
def joinAmp : List (List Char) → List Char
  | [] => []
  | [p] => p
  | p :: ps => p ++ '&' :: joinAmp ps

/-- `urllib.parse.urlencode(d, doseq=True)`: one `k=v` chunk per value, keys
and values quoted, joined with `&`. -/
def urlencode (d : List (List Char × List (List Char))) : List Char :=
  joinAmp ((d.map (fun kv => kv.2.map (fun v => quote_plus kv.1 ++ '=' :: quote_plus v))).flatten)

/-- The six components of `urllib.parse.urlparse` — the planner functions
read and write only `query` and pass the rest through `urlunparse`
unchanged. -/
structure Url where
  scheme : List Char
  netloc : List Char
  path : List Char
  params : List Char
  query : List Char
  fragment : List Char
deriving DecidableEq

/-- `urllib.parse.urlunparse` for the absolute-URL scope of this scraper:
used only to render URLs inside log messages. -/
def urlunparse (u : Url) : List Char :=
  u.scheme ++ "://".toList ++ u.netloc ++ u.path ++
    (if u.params = [] then [] else ';' :: u.params) ++
    (if u.query = [] then [] else '?' :: u.query) ++
    (if u.fragment = [] then [] else '#' :: u.fragment)

/-- The page-number query key `'pn'`. -/
def pnKey : List Char := "pn".toList

/-- `get_clean_base_url` (lines 122–144): parse the query string, delete the
`pn` key (deleting a key from the `dict` is key-filtering, keys being
unique), re-serialize, keep all other URL components. -/
def get_clean_base_url (url : Url) : Url :=
  let query_params := parse_qs url.query
  let query_params := query_params.filter (fun kv => ¬ kv.1 = pnKey)
  { url with query := urlencode query_params }

/-- Python `dict.__setitem__` on the association list: replace in place when
the key exists, append otherwise. -/
def qsSet (d : List (List Char × List (List Char))) (k : List Char) (v : List (List Char)) :
    List (List Char × List (List Char)) :=
  match d with
  | [] => [(k, v)]
  | kv :: rest => if kv.1 = k then (k, v) :: rest else kv :: qsSet rest k v

/-- `build_pagination_url` (lines 146–165): set `pn` to `[str(page_number)]`
and re-serialize. -/
def build_pagination_url (base_url : Url) (page_number : Nat) : Url :=
  let query_params := parse_qs base_url.query
  let query_params := qsSet query_params pnKey [natStr page_number]
  { base_url with query := urlencode query_params }

/-! ## Network model and orchestrator (lines 15–55, 167–223) -/

/-- Outcome of the one `session.get` of the rate endpoint (lines 20–27):
`success` is a 200 response whose JSON carries the `rates.JPY` field;
`malformed` is a 200 response where reading the payload raises
(`.json()` failure or missing field); `httpStatus` is a non-200 status
(no exception raised); `netError` is a timeout or connection exception. -/
inductive RateResponse where
  | success (rate : Rat)
  | malformed (err : List Char)
  | httpStatus (code : Nat)
  | netError (err : List Char)
deriving DecidableEq

/-- Outcome of one `session.get` of a listing page (lines 44–55): `ok` is a
200 response with its body text; `notFound` is a 404; `status` is any other
status; `netError` is a timeout or connection exception. -/
inductive FetchResponse where
  | ok (body : List Char)
  | notFound
  | status (code : Nat)
  | netError (err : List Char)
deriving DecidableEq

/-- Rendering of the rate inside the success log message (model of Python
float formatting; only the message's head matters to the theorems). -/
def ratStr (q : Rat) : List Char :=
  intStr q.num ++ (if q.den = 1 then [] else '/' :: natStr q.den)

/-- Log message of line 25. -/
def rateFetchedMsg (r : Rat) : Msg :=
  "✅ [Finance] Rate fetched: 1 USD = ".toList ++ ratStr r ++ " JPY".toList

/-- Log message of line 28. -/
def rateErrMsg (e : List Char) : Msg :=
  "⚠️ [Finance] API Error: ".toList ++ e ++ ". Using fallback 150.0".toList

/-- `get_usd_jpy_rate_async` (lines 15–30): a 200 response with a readable
payload logs success and returns the rate; a payload failure or a network
exception is caught by the `except`, which logs a warning; a non-200 status
falls through the `async with` body without logging; every non-success path
returns the fallback `150.0`. -/
def get_usd_jpy_rate_async (resp : RateResponse) (logs : List Msg) : Rat × List Msg :=
  match resp with
  | .success rate => (rate, logs ++ [rateFetchedMsg rate])
  | .malformed e => (150, logs ++ [rateErrMsg e])
  | .httpStatus _ => (150, logs)
  | .netError _e => (150, logs ++ [rateErrMsg _e])

/-- Log message of line 51. -/
def netErrMsg (code : Nat) (url : Url) : Msg :=
  "❌ [Network] Error ".toList ++ natStr code ++ " at ".toList ++ urlunparse url

/-- `fetch_page_async` (lines 32–55): 200 returns the body text; 404 returns
`None` silently (end of pagination); any other status logs the error and
returns `None`; an exception returns `None` without logging (the
`logs.append` in the `except` arm is commented out at line 54). -/
def fetch_page_async (resp : FetchResponse) (url : Url) (logs : List Msg) :
    Option (List Char) × List Msg :=
  match resp with
  | .ok body => (some body, logs)
  | .notFound => (none, logs)
  | .status code => (none, logs ++ [netErrMsg code url])
  | .netError _ => (none, logs)

/-- Log message of line 172. -/
def targetMsg (u : Url) : Msg := "🚀 [System] Target URL: ".toList ++ urlunparse u

/-- Log message of line 180. -/
def fetchP1Msg (u : Url) : Msg := "🔎 [System] Fetching Page 1: ".toList ++ urlunparse u

/-- Log message of line 185. -/
def criticalMsg : Msg := "❌ [Critical] Page 1 failed. Check URL or Network.".toList

/-- Log message of line 193. -/
def noCarsMsg : Msg := "⚠️ [Warning] Page 1 loaded but NO cars found. Check selectors.".toList

/-- Log message of line 221. -/
def summaryMsg (pages cars : Nat) : Msg :=
  "🏁 [System] Scrape Finished. Pages: ".toList ++ natStr pages ++
    ". Total Cars: ".toList ++ natStr cars

/-- The externally visible outcome of one harvest run, instrumented for the
properties under verification: records and log as returned by the source,
plus the number of `fetch_page_async` calls issued and the sequence of
`progress_callback` invocations. -/
structure RunResult where
  cars : List Record
  logs : List Msg
  fetches : Nat
  progress : List (Nat × Nat)
deriving DecidableEq

/-- Phase 2 fan-out (lines 200–212): one `monitored_fetch` per page index,
modelled as sequential completion in task order.  Returns the grown log, the
page bodies in task order (`asyncio.gather` preserves order), the progress
invocations, and the final value of the shared `completed_tasks` counter. -/
def fanOut (fetchEnv : Url → FetchResponse) (page1_url : Url) (max_pages : Nat) :
    List Nat → List Msg → Nat → List Msg × List (Option (List Char)) × List (Nat × Nat) × Nat
  | [], lgs, comp => (lgs, [], [], comp)
  | i :: rest, lgs, comp =>
    let url := build_pagination_url page1_url i
    let fr := fetch_page_async (fetchEnv url) url lgs
    let rec_ := fanOut fetchEnv page1_url max_pages rest fr.2 (comp + 1)
    (rec_.1, fr.1 :: rec_.2.1, (comp + 1, max_pages) :: rec_.2.2.1, rec_.2.2.2)

/-- `scrape_listings_async_runner` (lines 167–223).  The network is supplied
by `rateResp` (outcome of the rate request) and `fetchEnv` (outcome of the
page request for each URL); `soup` is the container-discovery abstraction.
Phase 1: rate, then page 1 via the cleaned base URL; a falsy body (`None` or
empty text) is critical and aborts.  The first progress call `(1, max_pages)`
follows page-1 parsing; the zero-record warning is logged; phase 2 runs only
when `max_pages > 1` and page 1 yielded records, appending the summary line
before returning. -/
def scrape_listings_async_runner (soup : List Char → List Container)
    (rateResp : RateResponse) (fetchEnv : Url → FetchResponse)
    (base_url : Url) (max_pages : Nat)
    (target_mark target_model : List Char) : RunResult :=
  let logs0 := [targetMsg base_url]
  let rres := get_usd_jpy_rate_async rateResp logs0
  let rate := rres.1
  let page1_url := get_clean_base_url base_url
  let logs1 := rres.2 ++ [fetchP1Msg page1_url]
  let pres := fetch_page_async (fetchEnv page1_url) page1_url logs1
  match pres.1 with
  | none => { cars := [], logs := pres.2 ++ [criticalMsg], fetches := 1, progress := [] }
  | some t =>
    if t = [] then
      { cars := [], logs := pres.2 ++ [criticalMsg], fetches := 1, progress := [] }
    else
      let cars_p1 := parse_search_results soup (some t) rate target_mark target_model pres.2
      let prog1 := [(1, max_pages)]
      let logs2 := if cars_p1 = [] then pres.2 ++ [noCarsMsg] else pres.2
      if 1 < max_pages ∧ cars_p1 ≠ [] then
        let fan := fanOut fetchEnv page1_url max_pages
          ((List.range (max_pages - 1)).map (fun k => k + 2)) logs2 1
        let fold := fan.2.1.foldl
          (fun (acc : Nat × List Record) h =>
            match h with
            | some s =>
              if s = [] then acc
              else (acc.1 + 1,
                acc.2 ++ parse_search_results soup (some s) rate target_mark target_model fan.1)
            | none => acc)
          (1, cars_p1)
        { cars := fold.2,
          logs := fan.1 ++ [summaryMsg fold.1 fold.2.length],
          fetches := max_pages,
          progress := prog1 ++ fan.2.2.1 }
      else
        { cars := cars_p1, logs := logs2, fetches := 1, progress := prog1 }

/-- The rate actually used by a harvest: the first component of
`get_usd_jpy_rate_async`, which does not depend on the incoming log. -/
def rateOf (resp : RateResponse) : Rat :=
  match resp with
  | .success r => r
  | _ => 150

/-- The log entries appended by one `get_usd_jpy_rate_async` call. -/
def rateDelta (resp : RateResponse) : List Msg :=
  match resp with
  | .success r => [rateFetchedMsg r]
  | .malformed e => [rateErrMsg e]
  | .httpStatus _ => []
  | .netError e => [rateErrMsg e]

/-- A summary log entry is recognized by its checkered-flag head character,
which no other message type of the scraper begins with. -/
def isSummaryMsg : Msg → Bool
  | [] => false
  | c :: _ => c == '🏁'

/-! ## Concrete environments used by witnesses and counterexamples -/

/-- Page-1 container of the concrete harvest environments used by witnesses. -/
def c0 : Container := ⟨"US$ 3,200 2010 model".toList, none, none, none⟩

/-- Container discovery of the concrete environments: every markup yields
exactly the one container `c0`. -/
def soup0 : List Char → List Container := fun _ => [c0]

/-- The record `c0` produces at rate 150. -/
def r0 : Record :=
  ⟨480, some 2010, 0, 0, "at".toList, "2wd".toList, "Unknown".toList, [], [], none⟩

/-- A container with a price but no plausible year token. -/
def cbad : Container := ⟨"no year here US$ 5,000".toList, none, none, none⟩

/-- A 3-dollar listing at rate 150: 450 JPY is below one thousand. -/
def c10ex : Container := ⟨"US$ 3".toList, none, none, none⟩

/-- A URL used by the concrete network counterexamples. -/
def urlX : Url :=
  ⟨"https".toList, "www.tc-v.com".toList, "/used_car/".toList, [], [], []⟩

/-- Environment in which every page fetch returns a 200 with body `"x"`. -/
def envOk1 : Url → FetchResponse := fun _ => FetchResponse.ok "x".toList

/-- Container discovery finding no containers on any markup. -/
def soupE : List Char → List Container := fun _ => []

/-- Base URL of the concrete harvests. -/
def uW : Url :=
  ⟨"https".toList, "www.tc-v.com".toList, "/used_car/nissan/skyline/".toList, [], [], []⟩

/-- Encoding of one (key, value) pair into a `k=v` chunk. -/
def encPair (kv : List Char × List Char) : List Char :=
  quote_plus kv.1 ++ '=' :: quote_plus kv.2

/-- The (key, value) pairs a dict serializes to, in order. -/
def pairsOf (d : List (List Char × List (List Char))) : List (List Char × List Char) :=
  (d.map (fun kv => kv.2.map (fun v => (kv.1, v)))).flatten

/-- Well-formedness of the association list modelling a parsed query `dict`:
keys are unique, every key's value list is nonempty, and every key and value
consists of characters below 256 with values nonempty. -/
def QsWF (d : List (List Char × List (List Char))) : Prop :=
  (d.map Prod.fst).Nodup ∧
  ∀ kv ∈ d, (∀ c ∈ kv.1, c.toNat < 256) ∧ kv.2 ≠ [] ∧
    ∀ v ∈ kv.2, v ≠ [] ∧ ∀ c ∈ v, c.toNat < 256

/-- A concrete filtered listing URL with an explicit page parameter. -/
def u9 : Url :=
  ⟨"https".toList, "www.tc-v.com".toList, "/used_car/".toList, [],
    "pn=3&steering=rhd".toList, []⟩

/-! ## Theorems -/

lemma yearTruthy_isSome {y : Option Nat} (h : yearTruthy y = true) : y.isSome := by
  cases y <;> simp [yearTruthy] at h ⊢

lemma processContainer_price_pos_year_some
    (rate : Rat) (mk md : List Char) (c : Container) (r : Record)
    (h : processContainer rate mk md c = some r) : 0 < r.price ∧ r.year.isSome := by
  simp only [processContainer] at h
  cases hep : extract_price c c.fullText rate with
  | none => rw [hep] at h; simp at h
  | some price =>
    rw [hep] at h
    cases hkm : numUnitField "km".toList c.fullText with
    | none => rw [hkm] at h; simp at h
    | some mileage =>
      rw [hkm] at h
      cases hcc : numUnitField "cc".toList c.fullText with
      | none => rw [hcc] at h; simp at h
      | some engine =>
        rw [hcc] at h
        simp only [] at h
        split at h
        · rename_i hgate
          obtain rfl : _ = r := Option.some.inj h
          simp only [Bool.and_eq_true, decide_eq_true_eq] at hgate
          exact ⟨hgate.1, yearTruthy_isSome hgate.2⟩
        · simp at h

lemma processContainer_none_of_gate (rate : Rat) (mk md : List Char) (c : Container)
    (h : extract_price c c.fullText rate = some 0 ∨ findYear c.fullText = none) :
    processContainer rate mk md c = none := by
  simp only [processContainer]
  rcases h with h | h
  · rw [h]
    cases hkm : numUnitField "km".toList c.fullText with
    | none => rfl
    | some mileage =>
      cases hcc : numUnitField "cc".toList c.fullText with
      | none => rfl
      | some engine => simp
  · cases hep : extract_price c c.fullText rate with
    | none => rfl
    | some price =>
      cases hkm : numUnitField "km".toList c.fullText with
      | none => rfl
      | some mileage =>
        cases hcc : numUnitField "cc".toList c.fullText with
        | none => rfl
        | some engine => simp [h, yearTruthy]

lemma pyInt_eq_zero {q : Rat} (h0 : 0 ≤ q) (h1 : q < 1) : pyInt q = 0 := by
  have hnum : 0 ≤ q.num := Rat.num_nonneg.mpr h0
  have hd : (0:ℚ) < (q.den : ℚ) := by exact_mod_cast q.den_pos
  have hlt : (q.num : ℚ) < (q.den : ℚ) := by
    rw [← Rat.num_div_den q] at h1
    exact (div_lt_one hd).mp h1
  have hlt2 : q.num < (q.den : ℤ) := by exact_mod_cast hlt
  simpa [pyInt] using Int.tdiv_eq_zero_of_lt hnum hlt2

lemma pyInt_natCast (n : Nat) : pyInt ((n : ℚ)) = (n : Int) := by
  simp [pyInt, Rat.num_natCast, Rat.den_natCast]

lemma extract_price_pos_eval {c : Container} {t : List Char} (p : Nat) (rate : Rat)
    (h : extract_usd c t = some p) (hp : 0 < p) :
    extract_price c t rate = some (pyInt ((p : ℚ) * rate / 1000)) := by
  simp only [extract_price, h]
  simp [hp]

lemma processContainer_c0 : processContainer 150 [] [] c0 = some r0 := by
  have hep : extract_price c0 c0.fullText 150 = some 480 := by
    have h1 := extract_price_pos_eval (c := c0) (t := c0.fullText) 3200 150 (by decide) (by norm_num)
    rw [h1]
    have h2 : ((3200:ℕ):ℚ) * 150 / 1000 = ((480:ℕ):ℚ) := by push_cast; norm_num
    rw [h2, pyInt_natCast]
    norm_num
  simp only [processContainer, hep]
  decide

lemma parse_c0 : parse_search_results soup0 (some "x".toList) 150 [] [] [] = [r0] := by
  simp [parse_search_results, soup0, List.filterMap_cons, processContainer_c0]

/-- **C1** For every markup input, exchange rate, make and model, every record
in the sequence returned by the listing extractor (`parse_search_results`) has
`price > 0` and a present (non-null) year; a container whose extracted price
is 0 or which contains no plausible year token contributes no record. -/
theorem claim_C1 :
    (∀ (soup : List Char → List Container) (html : Option (List Char)) (rate : Rat)
       (mk md : List Char) (lgs : List Msg) (r : Record),
       r ∈ parse_search_results soup html rate mk md lgs → 0 < r.price ∧ r.year.isSome) ∧
    (∀ (rate : Rat) (mk md : List Char) (c : Container),
       extract_price c c.fullText rate = some 0 ∨ findYear c.fullText = none →
       processContainer rate mk md c = none) := by
  constructor
  · intro soup html rate mk md lgs r hr
    cases html with
    | none => simp [parse_search_results] at hr
    | some t =>
      by_cases ht : t = []
      · simp [parse_search_results, ht] at hr
      · simp [parse_search_results, ht, List.mem_filterMap] at hr
        obtain ⟨c, _, hc⟩ := hr
        exact processContainer_price_pos_year_some rate mk md c r hc
  · intro rate mk md c h
    exact processContainer_none_of_gate rate mk md c h

/-- Witness for C1 at a concrete harvest: the record produced by `c0` passes
the gate, and a container without a year yields no record. -/
theorem claim_C1_witness :
    (0 < r0.price ∧ r0.year.isSome) ∧ processContainer 150 [] [] cbad = none :=
  ⟨claim_C1.1 soup0 (some "x".toList) 150 [] [] [] r0 (by rw [parse_c0]; simp),
   claim_C1.2 150 [] [] cbad (Or.inr (by decide))⟩

/-- **C7** Price extraction on container text `"US$ 3,200"` with no
price-labeled sub-element and exchange rate 150.0 returns 480: the
source-currency amount (comma separators stripped) is multiplied by the rate,
divided by 1000, and truncated to an integer. -/
theorem claim_C7 :
    extract_price ⟨"US$ 3,200".toList, none, none, none⟩ "US$ 3,200".toList 150
      = some (pyInt (((3200:ℕ) : ℚ) * 150 / 1000)) ∧
    pyInt (((3200:ℕ) : ℚ) * 150 / 1000) = 480 := by
  have h2 : ((3200:ℕ):ℚ) * 150 / 1000 = ((480:ℕ):ℚ) := by push_cast; norm_num
  constructor
  · exact extract_price_pos_eval 3200 150 (by decide) (by norm_num)
  · rw [h2, pyInt_natCast]; norm_num

/-- **C8** Year extraction on `"1995cc 2010 model"` yields 2010, not 1995:
a year token must be word-bounded on both sides, so a 4-digit number
immediately followed by a word character (such as the `cc` unit suffix) is
never matched. -/
theorem claim_C8 :
    findYear "1995cc 2010 model".toList = some 2010 ∧
    ∀ (d1 d2 d3 d4 c : Char) (rest : List Char),
      isWordChar c = true → yearMatch (d1 :: d2 :: d3 :: d4 :: c :: rest) = false := by
  constructor
  · decide
  · intro d1 d2 d3 d4 c rest h
    simp [yearMatch, boundaryA, h]

/-- Witness for C8's word-boundary clause at the concrete token `1995cc`. -/
theorem claim_C8_witness :
    isWordChar 'c' = true ∧ yearMatch ('1' :: '9' :: '9' :: '5' :: 'c' :: ['c']) = false :=
  ⟨by decide, claim_C8.2 '1' '9' '9' '5' 'c' ['c'] (by decide)⟩

/-- **C10** A container whose extracted source-currency price `p` is positive
but satisfies `p × rate < 1000` normalizes to price 0 and is dropped by the
`price > 0` gate: `extract_price` returns `some 0` and the container yields
no record. -/
theorem claim_C10 (c : Container) (rate : Rat) (mk md : List Char) (p : Nat)
    (hu : extract_usd c c.fullText = some p) (hp : 0 < p) (hr : 0 ≤ rate)
    (hlt : (p : ℚ) * rate < 1000) :
    extract_price c c.fullText rate = some 0 ∧ processContainer rate mk md c = none := by
  have hz : pyInt ((p : ℚ) * rate / 1000) = 0 := by
    apply pyInt_eq_zero
    · exact div_nonneg (mul_nonneg (by positivity) hr) (by norm_num)
    · rw [div_lt_one (by norm_num : (0:ℚ) < 1000)]; exact hlt
  have hep : extract_price c c.fullText rate = some 0 := by
    rw [extract_price_pos_eval p rate hu hp, hz]
  exact ⟨hep, processContainer_none_of_gate rate mk md c (Or.inl hep)⟩

/-- Witness for C10 at the concrete container `c10ex`. -/
theorem claim_C10_witness :
    extract_price c10ex c10ex.fullText 150 = some 0 ∧
    processContainer 150 [] [] c10ex = none :=
  claim_C10 c10ex 150 [] [] 3 (by decide) (by decide) (by norm_num)
    (by push_cast; norm_num)

/-- **C2 counterexample** A non-success HTTP status (500) makes the rate
provider return the fallback with **zero** log entries appended, refuting
"exactly one warning log entry" for that failing outcome. -/
theorem claim_C2_counterexample :
    get_usd_jpy_rate_async (RateResponse.httpStatus 500) [] = (150, []) ∧
    ((get_usd_jpy_rate_async (RateResponse.httpStatus 500) []).2.length = 0) := by
  constructor <;> rfl

/-- **C2 (amended)** On success the rate provider returns the fetched rate and
appends exactly one success entry; on a timeout/network exception or a
malformed/missing payload it returns the fallback 150.0 and appends exactly
one warning entry; on a non-success HTTP status it returns the fallback 150.0
without appending any log entry.  It never raises. -/
theorem claim_C2_amended :
    ∀ (lgs : List Msg),
      (∀ r, get_usd_jpy_rate_async (RateResponse.success r) lgs = (r, lgs ++ [rateFetchedMsg r])) ∧
      (∀ e, get_usd_jpy_rate_async (RateResponse.malformed e) lgs = (150, lgs ++ [rateErrMsg e])) ∧
      (∀ e, get_usd_jpy_rate_async (RateResponse.netError e) lgs = (150, lgs ++ [rateErrMsg e])) ∧
      (∀ code, get_usd_jpy_rate_async (RateResponse.httpStatus code) lgs = (150, lgs)) := by
  intro lgs
  exact ⟨fun _ => rfl, fun _ => rfl, fun _ => rfl, fun _ => rfl⟩

/-- **C3 counterexample** A network exception during a page fetch returns the
no-markup outcome with **zero** log entries appended (the `logs.append` in the
`except` arm is commented out), refuting "appends a log entry recording the
error" for the exception case. -/
theorem claim_C3_counterexample :
    fetch_page_async (FetchResponse.netError "timeout".toList) urlX [] = (none, []) ∧
    ((fetch_page_async (FetchResponse.netError "timeout".toList) urlX []).2.length = 0) := by
  constructor <;> rfl

/-- **C3 (amended)** A response status other than 200/404 appends exactly one
error log entry and returns the no-markup outcome; a network exception returns
the no-markup outcome **without** logging; a 404 returns the no-markup outcome
(the code conflates it with the end-of-data signal as `None`) and is not
logged; a 200 returns the body.  No case aborts: the function always returns. -/
theorem claim_C3_amended :
    ∀ (url : Url) (lgs : List Msg),
      (∀ body, fetch_page_async (FetchResponse.ok body) url lgs = (some body, lgs)) ∧
      (fetch_page_async FetchResponse.notFound url lgs = (none, lgs)) ∧
      (∀ code, fetch_page_async (FetchResponse.status code) url lgs
        = (none, lgs ++ [netErrMsg code url])) ∧
      (∀ e, fetch_page_async (FetchResponse.netError e) url lgs = (none, lgs)) := by
  intro url lgs
  exact ⟨fun _ => rfl, rfl, fun _ => rfl, fun _ => rfl⟩

lemma rate_async_fst (resp : RateResponse) (lgs : List Msg) :
    (get_usd_jpy_rate_async resp lgs).1 = rateOf resp := by
  cases resp <;> rfl

lemma rate_async_snd (resp : RateResponse) (lgs : List Msg) :
    (get_usd_jpy_rate_async resp lgs).2 = lgs ++ rateDelta resp := by
  cases resp <;> simp [get_usd_jpy_rate_async, rateDelta]

lemma parse_search_results_logs (soup : List Char → List Container)
    (h : Option (List Char)) (r : Rat) (mk md : List Char) (lgs : List Msg) :
    parse_search_results soup h r mk md lgs = parse_search_results soup h r mk md [] := rfl

/-- **C4** When page 1 is fetched successfully (200 with nonempty body) but
its extraction yields zero records, the orchestrator logs the zero-record
warning and skips the fan-out entirely: exactly one page fetch is issued in
total, for any `maxPages` value. -/
theorem claim_C4 (soup : List Char → List Container) (rateResp : RateResponse)
    (env : Url → FetchResponse) (u : Url) (N : Nat) (mk md : List Char) (body : List Char)
    (h1 : env (get_clean_base_url u) = FetchResponse.ok body) (h2 : body ≠ [])
    (h3 : parse_search_results soup (some body) (rateOf rateResp) mk md [] = []) :
    (scrape_listings_async_runner soup rateResp env u N mk md).fetches = 1 ∧
    noCarsMsg ∈ (scrape_listings_async_runner soup rateResp env u N mk md).logs := by
  simp only [scrape_listings_async_runner, h1, fetch_page_async, rate_async_fst]
  rw [parse_search_results_logs]
  simp [h2, h3, List.mem_append]

lemma fanOut_progress (env : Url → FetchResponse) (p1 : Url) (N : Nat) :
    ∀ (idxs : List Nat) (lgs : List Msg) (comp : Nat),
      (fanOut env p1 N idxs lgs comp).2.2.1
        = (List.range idxs.length).map (fun k => (comp + 1 + k, N)) := by
  intro idxs
  induction idxs with
  | nil => intro lgs comp; simp [fanOut]
  | cons i rest ih =>
    intro lgs comp
    simp only [fanOut, ih, List.length_cons, List.range_succ_eq_map, List.map_cons,
      List.map_map]
    refine List.cons_eq_cons.mpr ⟨by simp, ?_⟩
    congr 1
    funext k
    simp only [Function.comp_apply, Prod.mk.injEq, Nat.succ_eq_add_one]
    exact ⟨by omega, trivial⟩

/-- **C5** For every harvest with `maxPages = N ≥ 1` in which page 1 is
fetched successfully and yields at least one record, the progress callback is
invoked exactly `N` times, the `(N-1)`-th (final) invocation is `(N, N)`, and
the completed values are non-decreasing across invocations — regardless of
how the remaining pages fare (`env` is arbitrary). -/
theorem claim_C5 (soup : List Char → List Container) (rateResp : RateResponse)
    (env : Url → FetchResponse) (u : Url) (N : Nat) (mk md : List Char) (body : List Char)
    (hN : 1 ≤ N)
    (h1 : env (get_clean_base_url u) = FetchResponse.ok body) (h2 : body ≠ [])
    (h3 : parse_search_results soup (some body) (rateOf rateResp) mk md [] ≠ []) :
    (scrape_listings_async_runner soup rateResp env u N mk md).progress.length = N ∧
    (scrape_listings_async_runner soup rateResp env u N mk md).progress.get? (N - 1)
      = some (N, N) ∧
    (∀ i j : Nat, i ≤ j →
      ∀ pi pj : Nat × Nat,
        (scrape_listings_async_runner soup rateResp env u N mk md).progress.get? i = some pi →
        (scrape_listings_async_runner soup rateResp env u N mk md).progress.get? j = some pj →
        pi.1 ≤ pj.1) := by
  have hchar : (scrape_listings_async_runner soup rateResp env u N mk md).progress
      = (List.range N).map (fun k => (k + 1, N)) := by
    simp only [scrape_listings_async_runner, h1, fetch_page_async, rate_async_fst]
    rw [parse_search_results_logs]
    by_cases hN1 : 1 < N
    · rw [if_neg h2, if_pos ⟨hN1, h3⟩]
      obtain ⟨M, rfl⟩ : ∃ M, N = M + 1 := ⟨N - 1, by omega⟩
      simp only [fanOut_progress, List.length_map, List.length_range, Nat.add_sub_cancel,
        List.range_succ_eq_map, List.map_cons, List.map_map]
      refine List.cons_eq_cons.mpr ⟨by simp, ?_⟩
      simp only [List.append_eq, List.nil_append]
      congr 1
      funext k
      simp only [Function.comp_apply, Prod.mk.injEq, Nat.succ_eq_add_one]
      exact ⟨by omega, trivial⟩
    · obtain rfl : N = 1 := by omega
      rw [if_neg h2, if_neg (by simp)]
      simp [List.range_succ]
  rw [hchar]
  refine ⟨by simp, ?_, ?_⟩
  · rw [List.get?_map, List.get?_range (by omega : N - 1 < N)]
    show some (N - 1 + 1, N) = some (N, N)
    rw [Nat.sub_add_cancel hN]
  · intro i j hij pi pj hpi hpj
    rw [List.get?_map] at hpi hpj
    obtain ⟨a, ha, rfl⟩ := Option.map_eq_some'.mp hpi
    obtain ⟨b, hb, rfl⟩ := Option.map_eq_some'.mp hpj
    have hiN : i < N := by
      by_contra hcon
      rw [List.get?_eq_none.mpr (by simpa using Nat.le_of_not_lt hcon)] at ha
      exact Option.noConfusion ha
    have hjN : j < N := by
      by_contra hcon
      rw [List.get?_eq_none.mpr (by simpa using Nat.le_of_not_lt hcon)] at hb
      exact Option.noConfusion hb
    rw [List.get?_range hiN] at ha
    rw [List.get?_range hjN] at hb
    obtain rfl := Option.some.inj ha
    obtain rfl := Option.some.inj hb
    simpa using Nat.add_le_add_right hij 1

lemma isSummary_targetMsg (u : Url) : isSummaryMsg (targetMsg u) = false := rfl
lemma isSummary_fetchP1Msg (u : Url) : isSummaryMsg (fetchP1Msg u) = false := rfl
lemma isSummary_criticalMsg : isSummaryMsg criticalMsg = false := rfl
lemma isSummary_noCarsMsg : isSummaryMsg noCarsMsg = false := rfl
lemma isSummary_rateFetchedMsg (r : Rat) : isSummaryMsg (rateFetchedMsg r) = false := rfl
lemma isSummary_rateErrMsg (e : List Char) : isSummaryMsg (rateErrMsg e) = false := rfl
lemma isSummary_netErrMsg (code : Nat) (url : Url) : isSummaryMsg (netErrMsg code url) = false := rfl
lemma isSummary_summaryMsg (p c : Nat) : isSummaryMsg (summaryMsg p c) = true := rfl

lemma countP_isSummary_rateDelta (resp : RateResponse) :
    (rateDelta resp).countP isSummaryMsg = 0 := by
  cases resp <;>
    simp [rateDelta, List.countP_cons, List.countP_nil,
      isSummary_rateFetchedMsg, isSummary_rateErrMsg]

lemma fetch_logs_countP (resp : FetchResponse) (url : Url) (lgs : List Msg) :
    ((fetch_page_async resp url lgs).2).countP isSummaryMsg = lgs.countP isSummaryMsg := by
  cases resp <;>
    simp [fetch_page_async, List.countP_append, List.countP_cons, List.countP_nil,
      isSummary_netErrMsg]

lemma fanOut_logs_countP (env : Url → FetchResponse) (p1 : Url) (N : Nat) :
    ∀ (idxs : List Nat) (lgs : List Msg) (comp : Nat),
      ((fanOut env p1 N idxs lgs comp).1).countP isSummaryMsg = lgs.countP isSummaryMsg := by
  intro idxs
  induction idxs with
  | nil => intro lgs comp; rfl
  | cons i rest ih =>
    intro lgs comp
    simp only [fanOut, ih, fetch_logs_countP]

lemma runner_logs_countP (soup : List Char → List Container) (rateResp : RateResponse)
    (env : Url → FetchResponse) (u : Url) (N : Nat) (mk md : List Char) (body : List Char)
    (h1 : env (get_clean_base_url u) = FetchResponse.ok body) (h2 : body ≠ []) :
    (scrape_listings_async_runner soup rateResp env u N mk md).logs.countP isSummaryMsg
      = if 1 < N ∧ parse_search_results soup (some body) (rateOf rateResp) mk md [] ≠ []
        then 1 else 0 := by
  simp only [scrape_listings_async_runner, h1, fetch_page_async, rate_async_fst, rate_async_snd]
  rw [parse_search_results_logs]
  rw [if_neg h2]
  by_cases hc : 1 < N ∧ parse_search_results soup (some body) (rateOf rateResp) mk md [] ≠ []
  · rw [if_pos hc, if_pos hc]
    simp only [if_neg hc.2, fanOut_logs_countP, List.countP_append, List.countP_cons,
      List.countP_nil, isSummary_targetMsg, isSummary_fetchP1Msg, isSummary_summaryMsg,
      countP_isSummary_rateDelta]
    simp
  · rw [if_neg hc, if_neg hc]
    by_cases hcp : parse_search_results soup (some body) (rateOf rateResp) mk md [] = []
    · simp only [if_pos hcp]
      simp [List.countP_append, List.countP_cons, List.countP_nil, isSummary_targetMsg,
        isSummary_fetchP1Msg, isSummary_noCarsMsg, countP_isSummary_rateDelta]
    · simp only [if_neg hcp]
      simp [List.countP_append, List.countP_cons, List.countP_nil, isSummary_targetMsg,
        isSummary_fetchP1Msg, countP_isSummary_rateDelta]

/-- **C6 (amended)** In the non-critical case (page 1 fetched successfully
with a nonempty body), the summary log line is appended **iff** `maxPages > 1`
and page 1 yielded at least one record; in particular no summary line is
appended when `maxPages = 1` or when page 1 yielded zero records. -/
theorem claim_C6_amended (soup : List Char → List Container) (rateResp : RateResponse)
    (env : Url → FetchResponse) (u : Url) (N : Nat) (mk md : List Char) (body : List Char)
    (h1 : env (get_clean_base_url u) = FetchResponse.ok body) (h2 : body ≠ []) :
    (scrape_listings_async_runner soup rateResp env u N mk md).logs.countP isSummaryMsg
      = if 1 < N ∧ parse_search_results soup (some body) (rateOf rateResp) mk md [] ≠ []
        then 1 else 0 :=
  runner_logs_countP soup rateResp env u N mk md body h1 h2

/-- **C6 counterexample** A harvest with `maxPages = 1` whose page 1 is
fetched successfully and yields one record appends **no** summary line,
refuting "a summary log line … is appended … including when maxPages = 1". -/
theorem claim_C6_counterexample :
    parse_search_results soup0 (some "x".toList) (rateOf (RateResponse.success 150)) [] [] [] ≠ [] ∧
    (scrape_listings_async_runner soup0 (RateResponse.success 150) envOk1 uW 1 [] []).logs.countP
      isSummaryMsg = 0 := by
  have hp : parse_search_results soup0 (some "x".toList) (rateOf (RateResponse.success 150)) [] [] []
      ≠ [] := by
    exact (show parse_search_results soup0 (some "x".toList) 150 [] [] [] ≠ [] by
      rw [parse_c0]; simp)
  refine ⟨hp, ?_⟩
  rw [runner_logs_countP soup0 (RateResponse.success 150) envOk1 uW 1 [] [] "x".toList rfl
    (by decide)]
  rw [if_neg (fun hcon => absurd hcon.1 (by omega))]

/-- Witness for C4 at a concrete environment whose page 1 parses to zero
records, with `maxPages = 5`. -/
theorem claim_C4_witness :
    (scrape_listings_async_runner soupE (RateResponse.success 150) envOk1 uW 5 [] []).fetches = 1 ∧
    noCarsMsg ∈ (scrape_listings_async_runner soupE (RateResponse.success 150) envOk1 uW 5 [] []).logs :=
  claim_C4 soupE (RateResponse.success 150) envOk1 uW 5 [] [] "x".toList rfl (by decide)
    (by decide)

/-- Witness for C5 at a concrete environment with `maxPages = 5` and a
record-yielding page 1. -/
theorem claim_C5_witness :
    (scrape_listings_async_runner soup0 (RateResponse.success 150) envOk1 uW 5 [] []).progress.length
      = 5 ∧
    (scrape_listings_async_runner soup0 (RateResponse.success 150) envOk1 uW 5 [] []).progress.get? 4
      = some (5, 5) :=
  have h3 : parse_search_results soup0 (some "x".toList) (rateOf (RateResponse.success 150)) [] [] []
      ≠ [] :=
    (show parse_search_results soup0 (some "x".toList) 150 [] [] [] ≠ [] by rw [parse_c0]; simp)
  ⟨(claim_C5 soup0 (RateResponse.success 150) envOk1 uW 5 [] [] "x".toList (by omega) rfl
      (by decide) h3).1,
   (claim_C5 soup0 (RateResponse.success 150) envOk1 uW 5 [] [] "x".toList (by omega) rfl
      (by decide) h3).2.1⟩

/-- Witness for the amended C6 at a concrete environment with
`maxPages = 5`. -/
theorem claim_C6_witness :
    (scrape_listings_async_runner soup0 (RateResponse.success 150) envOk1 uW 5 [] []).logs.countP
      isSummaryMsg
      = if 1 < 5 ∧ parse_search_results soup0 (some "x".toList)
            (rateOf (RateResponse.success 150)) [] [] [] ≠ [] then 1 else 0 :=
  claim_C6_amended soup0 (RateResponse.success 150) envOk1 uW 5 [] [] "x".toList rfl (by decide)

/-! ## C9: pagination planner round-trip -/

lemma hexVal_hexDigitChar (n : Nat) (h : n < 16) : hexVal (hexDigitChar n) = some n := by
  interval_cases n <;> decide

lemma isSafeChar_ne_plus_percent {c : Char} (h : isSafeChar c = true) :
    c ≠ '+' ∧ c ≠ '%' := by
  constructor <;> rintro rfl <;> simp [isSafeChar] at h

lemma unquote_plus_cons_ne (c : Char) (s : List Char) (h1 : c ≠ '+') (h2 : c ≠ '%') :
    unquote_plus (c :: s) = c :: unquote_plus s := by
  rw [unquote_plus.eq_def]
  split
  · simp_all
  · simp_all
  · simp_all
  · rename_i heq
    injection heq with e1 e2
    subst e1
    subst e2
    rfl

lemma unquote_quoteChar {c : Char} (h : c.toNat < 256) (s : List Char) :
    unquote_plus (quoteChar c ++ s) = c :: unquote_plus s := by
  by_cases hsp : c = ' '
  · subst hsp
    show unquote_plus ('+' :: s) = ' ' :: unquote_plus s
    rw [unquote_plus.eq_def]
    rfl
  · by_cases hsafe : isSafeChar c = true
    · have hq : quoteChar c = [c] := by simp [quoteChar, hsp, hsafe]
      rw [hq]
      obtain ⟨hp1, hp2⟩ := isSafeChar_ne_plus_percent hsafe
      exact unquote_plus_cons_ne c s hp1 hp2
    · have hq : quoteChar c
          = ['%', hexDigitChar (c.toNat / 16 % 16), hexDigitChar (c.toNat % 16)] := by
        simp [quoteChar, hsp, hsafe]
      rw [hq]
      have e1 := hexVal_hexDigitChar (c.toNat / 16 % 16) (Nat.mod_lt _ (by omega))
      have e2 := hexVal_hexDigitChar (c.toNat % 16) (Nat.mod_lt _ (by omega))
      show unquote_plus
          ('%' :: hexDigitChar (c.toNat / 16 % 16) :: hexDigitChar (c.toNat % 16) :: s)
        = c :: unquote_plus s
      rw [unquote_plus.eq_def]
      simp only [e1, e2]
      have harith : 16 * (c.toNat / 16 % 16) + c.toNat % 16 = c.toNat := by omega
      rw [harith, Char.ofNat_toNat]

lemma quote_plus_cons (c : Char) (s : List Char) :
    quote_plus (c :: s) = quoteChar c ++ quote_plus s := by
  simp [quote_plus]

lemma unquote_quote_plus : ∀ (s : List Char), (∀ c ∈ s, c.toNat < 256) →
    unquote_plus (quote_plus s) = s := by
  intro s
  induction s with
  | nil =>
    intro _
    show unquote_plus [] = []
    rw [unquote_plus.eq_def]
  | cons c s ih =>
    intro h
    rw [quote_plus_cons, unquote_quoteChar (h c (by simp)) (quote_plus s),
      ih (fun x hx => h x (by simp [hx]))]

lemma hexDigitChar_mem_range (n : Nat) (h : n < 16) :
    hexDigitChar n ≠ '&' ∧ hexDigitChar n ≠ '=' := by
  interval_cases n <;> exact ⟨by decide, by decide⟩

lemma quoteChar_ne_amp_eq {c x : Char} (hx : x ∈ quoteChar c) : x ≠ '&' ∧ x ≠ '=' := by
  unfold quoteChar at hx
  by_cases hsp : c = ' '
  · rw [if_pos hsp] at hx
    simp at hx
    subst hx
    exact ⟨by decide, by decide⟩
  · rw [if_neg hsp] at hx
    by_cases hsafe : isSafeChar c = true
    · rw [if_pos hsafe] at hx
      simp at hx
      subst hx
      constructor <;> rintro rfl <;> simp [isSafeChar] at hsafe
    · rw [if_neg hsafe] at hx
      simp at hx
      rcases hx with rfl | rfl | rfl
      · exact ⟨by decide, by decide⟩
      · exact hexDigitChar_mem_range _ (Nat.mod_lt _ (by omega))
      · exact hexDigitChar_mem_range _ (Nat.mod_lt _ (by omega))

lemma quoteChar_ne_nil (c : Char) : quoteChar c ≠ [] := by
  unfold quoteChar
  split_ifs <;> simp

lemma mem_quote_plus {x : Char} {s : List Char} (hx : x ∈ quote_plus s) :
    ∃ c ∈ s, x ∈ quoteChar c := by
  simp only [quote_plus, List.mem_flatten, List.mem_map] at hx
  obtain ⟨l, ⟨c, hc, rfl⟩, hxl⟩ := hx
  exact ⟨c, hc, hxl⟩

lemma quote_plus_no_amp_eq {x : Char} {s : List Char} (hx : x ∈ quote_plus s) :
    x ≠ '&' ∧ x ≠ '=' := by
  obtain ⟨c, _, hxc⟩ := mem_quote_plus hx
  exact quoteChar_ne_amp_eq hxc

lemma quote_plus_ne_nil {s : List Char} (h : s ≠ []) : quote_plus s ≠ [] := by
  cases s with
  | nil => exact absurd rfl h
  | cons c s =>
    rw [quote_plus_cons]
    intro hc
    exact quoteChar_ne_nil c (List.append_eq_nil.mp hc).1

lemma splitAmp_no_amp {p : List Char} (h : '&' ∉ p) : splitAmp p = [p] := by
  induction p with
  | nil => rfl
  | cons c rest ih =>
    have hc : ¬ c = '&' := fun hcc => h (by simp [hcc])
    simp only [splitAmp, if_neg hc]
    rw [ih (fun hm => h (by simp [hm]))]

lemma splitAmp_append {p t : List Char} (h : '&' ∉ p) :
    splitAmp (p ++ '&' :: t) = p :: splitAmp t := by
  induction p with
  | nil => simp [splitAmp]
  | cons c rest ih =>
    have hc : ¬ c = '&' := fun hcc => h (by simp [hcc])
    simp only [List.cons_append, splitAmp, if_neg hc, List.append_eq]
    rw [ih (fun hm => h (by simp [hm]))]

lemma splitEq1_append {a b : List Char} (h : '=' ∉ a) :
    splitEq1 (a ++ '=' :: b) = some (a, b) := by
  induction a with
  | nil => simp [splitEq1]
  | cons c rest ih =>
    have hc : ¬ c = '=' := fun hcc => h (by simp [hcc])
    simp only [List.cons_append, splitEq1, if_neg hc, List.append_eq]
    rw [ih (fun hm => h (by simp [hm]))]

lemma amp_not_mem_encPair {kv : List Char × List Char} : '&' ∉ encPair kv := by
  intro hm
  simp only [encPair, List.mem_append, List.mem_cons] at hm
  rcases hm with hm | hm | hm
  · exact (quote_plus_no_amp_eq hm).1 rfl
  · exact absurd hm (by decide)
  · exact (quote_plus_no_amp_eq hm).1 rfl

lemma parsePairChunk_encPair {kv : List Char × List Char}
    (hk : ∀ c ∈ kv.1, c.toNat < 256) (hv : kv.2 ≠ []) (hvc : ∀ c ∈ kv.2, c.toNat < 256) :
    parsePairChunk (encPair kv) = some kv := by
  have hne : encPair kv ≠ [] := by
    simp only [encPair]
    intro hcon
    exact absurd (List.append_eq_nil.mp hcon).2 (by simp)
  have hsplit : splitEq1 (encPair kv) = some (quote_plus kv.1, quote_plus kv.2) :=
    splitEq1_append (fun hm => (quote_plus_no_amp_eq hm).2 rfl)
  simp only [parsePairChunk, if_neg hne, hsplit, if_neg (quote_plus_ne_nil hv),
    unquote_quote_plus kv.1 hk, unquote_quote_plus kv.2 hvc]

lemma parse_qsl_joinAmp_encPairs :
    ∀ (L : List (List Char × List Char)),
      (∀ kv ∈ L, (∀ c ∈ kv.1, c.toNat < 256) ∧ kv.2 ≠ [] ∧ (∀ c ∈ kv.2, c.toNat < 256)) →
      parse_qsl (joinAmp (L.map encPair)) = L := by
  intro L
  induction L with
  | nil => intro _; rfl
  | cons kv L ih =>
    intro h
    obtain ⟨hk, hv, hvc⟩ := h kv (by simp)
    have hpc := parsePairChunk_encPair hk hv hvc
    cases L with
    | nil =>
      show parse_qsl (encPair kv) = [kv]
      unfold parse_qsl
      rw [splitAmp_no_amp amp_not_mem_encPair]
      simp [hpc]
    | cons kv2 L2 =>
      show parse_qsl (encPair kv ++ '&' :: joinAmp ((kv2 :: L2).map encPair)) = kv :: kv2 :: L2
      unfold parse_qsl
      rw [splitAmp_append amp_not_mem_encPair]
      rw [List.filterMap_cons]
      rw [hpc]
      have ih2 := ih (fun x hx => h x (by simp [hx]))
      unfold parse_qsl at ih2
      rw [ih2]

lemma urlencode_eq_joinAmp_encPairs (d : List (List Char × List (List Char))) :
    urlencode d = joinAmp ((pairsOf d).map encPair) := by
  unfold urlencode pairsOf
  congr 1
  induction d with
  | nil => rfl
  | cons kv d ih =>
    simp only [List.map_cons, List.flatten_cons, List.map_append, List.map_map, ih]
    rfl

lemma foldl_qsAdd_same_key :
    ∀ (vs : List (List Char)) (k : List Char) (a : List (List Char)),
      List.foldl (fun d kv => qsAdd d kv.1 kv.2) [(k, a)] (vs.map (fun v => (k, v)))
        = [(k, a ++ vs)] := by
  intro vs
  induction vs with
  | nil => intro k a; simp
  | cons v vs ih =>
    intro k a
    simp only [List.map_cons, List.foldl_cons]
    have : qsAdd [(k, a)] k v = [(k, a ++ [v])] := by simp [qsAdd]
    rw [this, ih]
    simp

lemma foldl_qsAdd_fresh_key :
    ∀ (ps : List (List Char × List Char)) (k : List Char) (vs : List (List Char))
      (acc : List (List Char × List (List Char))),
      (∀ p ∈ ps, p.1 ≠ k) →
      List.foldl (fun d kv => qsAdd d kv.1 kv.2) ((k, vs) :: acc) ps
        = (k, vs) :: List.foldl (fun d kv => qsAdd d kv.1 kv.2) acc ps := by
  intro ps
  induction ps with
  | nil => intro k vs acc _; rfl
  | cons p ps ih =>
    intro k vs acc h
    simp only [List.foldl_cons]
    have hne : ¬ (k = p.1) := fun hcc => (h p (by simp)) hcc.symm
    have : qsAdd ((k, vs) :: acc) p.1 p.2 = (k, vs) :: qsAdd acc p.1 p.2 := by
      simp [qsAdd, hne]
    rw [this, ih _ _ _ (fun x hx => h x (by simp [hx]))]

lemma mem_pairsOf_key {d : List (List Char × List (List Char))}
    {p : List Char × List Char} (hp : p ∈ pairsOf d) :
    ∃ kv ∈ d, p.1 = kv.1 ∧ p.2 ∈ kv.2 := by
  simp only [pairsOf, List.mem_flatten, List.mem_map] at hp
  obtain ⟨l, ⟨kv, hkv, rfl⟩, hpl⟩ := hp
  simp only [List.mem_map] at hpl
  obtain ⟨v, hv, rfl⟩ := hpl
  exact ⟨kv, hkv, rfl, hv⟩

lemma foldl_qsAdd_pairsOf :
    ∀ (d : List (List Char × List (List Char))),
      (d.map Prod.fst).Nodup →
      (∀ kv ∈ d, kv.2 ≠ []) →
      List.foldl (fun d kv => qsAdd d kv.1 kv.2) [] (pairsOf d) = d := by
  intro d
  induction d with
  | nil => intro _ _; rfl
  | cons kv d ih =>
    intro hnd hvne
    have hkd : ∀ p ∈ pairsOf d, p.1 ≠ kv.1 := by
      intro p hp hcc
      obtain ⟨kv2, hkv2, hpk, _⟩ := mem_pairsOf_key hp
      simp only [List.map_cons, List.nodup_cons] at hnd
      apply hnd.1
      have : kv2.1 = kv.1 := by rw [← hpk, hcc]
      rw [← this]
      exact List.mem_map.mpr ⟨kv2, hkv2, rfl⟩
    obtain ⟨v, vs, hvs⟩ : ∃ v vs, kv.2 = v :: vs := by
      rcases hkv2 : kv.2 with _ | ⟨v, vs⟩
      · exact absurd hkv2 (hvne kv (by simp))
      · exact ⟨v, vs, rfl⟩
    show List.foldl (fun d kv => qsAdd d kv.1 kv.2) []
        ((kv.2.map (fun v => (kv.1, v))) ++ pairsOf d) = kv :: d
    rw [List.foldl_append]
    have h1 : List.foldl (fun d kv => qsAdd d kv.1 kv.2) [] (kv.2.map (fun v => (kv.1, v)))
        = [(kv.1, kv.2)] := by
      rw [hvs]
      simp only [List.map_cons, List.foldl_cons]
      have : qsAdd [] kv.1 v = [(kv.1, [v])] := rfl
      rw [this, foldl_qsAdd_same_key]
      simp
    rw [h1, foldl_qsAdd_fresh_key _ _ _ _ hkd]
    have hih : List.foldl (fun d kv => qsAdd d kv.1 kv.2) [] (pairsOf d) = d := by
      apply ih
      · simp only [List.map_cons, List.nodup_cons] at hnd
        exact hnd.2
      · exact fun x hx => hvne x (by simp [hx])
    rw [hih]

/-! ### Well-formedness of parsed query dicts -/

lemma parse_qs_urlencode {d : List (List Char × List (List Char))} (h : QsWF d) :
    parse_qs (urlencode d) = d := by
  unfold parse_qs
  rw [urlencode_eq_joinAmp_encPairs, parse_qsl_joinAmp_encPairs, foldl_qsAdd_pairsOf]
  · exact h.1
  · exact fun kv hkv => (h.2 kv hkv).2.1
  · intro p hp
    obtain ⟨kv, hkv, hpk, hpv⟩ := mem_pairsOf_key hp
    obtain ⟨hk, _, hvs⟩ := h.2 kv hkv
    obtain ⟨hvne, hvc⟩ := hvs p.2 hpv
    exact ⟨hpk ▸ hk, hvne, hvc⟩

lemma hexVal_lt {c : Char} {a : Nat} (h : hexVal c = some a) : a < 16 := by
  unfold hexVal at h
  split_ifs at h <;> (injection h with h2; omega)

lemma splitAmp_ne_nil : ∀ (s : List Char), splitAmp s ≠ [] := by
  intro s
  induction s with
  | nil => simp [splitAmp]
  | cons c rest ih =>
    simp only [splitAmp]
    split
    · simp
    · rcases hs : splitAmp rest with _ | ⟨p, ps⟩
      · simp
      · simp

lemma mem_splitAmp_subset :
    ∀ (s : List Char) (p : List Char), p ∈ splitAmp s → ∀ c ∈ p, c ∈ s := by
  intro s
  induction s with
  | nil =>
    intro p hp
    simp [splitAmp] at hp
    subst hp
    simp
  | cons a rest ih =>
    intro p hp
    simp only [splitAmp] at hp
    by_cases ha : a = '&'
    · rw [if_pos ha] at hp
      rcases List.mem_cons.mp hp with rfl | hp2
      · simp
      · intro c hc
        exact List.mem_cons_of_mem _ (ih p hp2 c hc)
    · rw [if_neg ha] at hp
      rcases hs : splitAmp rest with _ | ⟨q, qs⟩
      · exact absurd hs (splitAmp_ne_nil rest)
      · rw [hs] at hp
        rcases List.mem_cons.mp hp with rfl | hp2
        · intro c hc
          rcases List.mem_cons.mp hc with rfl | hc2
          · simp
          · exact List.mem_cons_of_mem _ (ih q (hs ▸ List.mem_cons_self q qs) c hc2)
        · intro c hc
          exact List.mem_cons_of_mem _ (ih p (hs ▸ List.mem_cons_of_mem q hp2) c hc)

lemma splitEq1_subset :
    ∀ (s a b : List Char), splitEq1 s = some (a, b) →
      (∀ c ∈ a, c ∈ s) ∧ (∀ c ∈ b, c ∈ s) := by
  intro s
  induction s with
  | nil => intro a b h; exact absurd h (by simp [splitEq1])
  | cons x rest ih =>
    intro a b h
    simp only [splitEq1] at h
    by_cases hx : x = '='
    · rw [if_pos hx] at h
      injection h with h2
      injection h2 with ha hb
      subst ha
      subst hb
      exact ⟨by simp, fun c hc => List.mem_cons_of_mem _ hc⟩
    · rw [if_neg hx] at h
      rcases hs : splitEq1 rest with _ | ⟨⟨a2, b2⟩⟩
      · rw [hs] at h; exact absurd h (by simp)
      · rw [hs] at h
        injection h with h2
        injection h2 with ha hb
        subst ha
        subst hb
        obtain ⟨ha2, hb2⟩ := ih a2 b2 hs
        constructor
        · intro c hc
          rcases List.mem_cons.mp hc with rfl | hc2
          · simp
          · exact List.mem_cons_of_mem _ (ha2 c hc2)
        · exact fun c hc => List.mem_cons_of_mem _ (hb2 c hc)

lemma char_toNat_ofNat_of_valid {n : Nat} (h : n.isValidChar) :
    (Char.ofNat n).toNat = n := by
  rw [Char.ofNat, dif_pos h]
  rfl

lemma unquote_plus_chars :
    ∀ (s : List Char), (∀ c ∈ s, c.toNat < 256) → ∀ x ∈ unquote_plus s, x.toNat < 256 := by
  intro s
  induction s using unquote_plus.induct with
  | case1 =>
    intro _ x hx
    rw [unquote_plus.eq_def] at hx
    simp at hx
  | case2 rest ih =>
    intro h x hx
    rw [unquote_plus.eq_def] at hx
    simp only [] at hx
    rcases List.mem_cons.mp hx with rfl | hx2
    · decide
    · exact ih (fun c hc => h c (by simp [hc])) x hx2
  | case3 h1 h2 rest2 a b e1 e2 ih =>
    intro h x hx
    rw [unquote_plus.eq_def] at hx
    simp only [e1, e2] at hx
    rcases List.mem_cons.mp hx with rfl | hx2
    · have ha := hexVal_lt e1
      have hb := hexVal_lt e2
      have hv : (16 * a + b).isValidChar := Or.inl (by omega)
      have he := char_toNat_ofNat_of_valid hv
      omega
    · exact ih (fun c hc => h c (by simp [hc])) x hx2
  | case4 h1 h2 rest2 hne ih =>
    intro h x hx
    rw [unquote_plus.eq_def] at hx
    have hred : x ∈ ('%' :: unquote_plus (h1 :: h2 :: rest2)) := by
      rcases hv1 : hexVal h1 with _ | a
      · simpa [hv1] using hx
      · rcases hv2 : hexVal h2 with _ | b
        · simpa [hv1, hv2] using hx
        · exact (hne a b hv1 hv2).elim
    rcases List.mem_cons.mp hred with rfl | hx2
    · decide
    · exact ih (fun c hc => h c (by simp [hc])) x hx2
  | case5 c rest hne1 hne2 ih =>
    intro h x hx
    have hcp : c ≠ '+' := fun hc => hne1 hc
    have hcc : unquote_plus (c :: rest) = c :: unquote_plus rest := by
      by_cases hpc : c = '%'
      · subst hpc
        rcases rest with _ | ⟨h1, rest1⟩
        · rw [unquote_plus.eq_def]
          rfl
        · rcases rest1 with _ | ⟨h2, rest2⟩
          · rw [unquote_plus.eq_def]
            rfl
          · exact (hne2 h1 h2 rest2 rfl rfl).elim
      · exact unquote_plus_cons_ne c rest hcp hpc
    rw [hcc] at hx
    rcases List.mem_cons.mp hx with rfl | hx2
    · exact h x (by simp)
    · exact ih (fun cc hc2 => h cc (by simp [hc2])) x hx2

lemma unquote_plus_ne_nil (c : Char) (s : List Char) : unquote_plus (c :: s) ≠ [] := by
  rw [unquote_plus.eq_def]
  repeat' split
  all_goals simp_all

lemma parse_qsl_wf {s : List Char} (hs : ∀ c ∈ s, c.toNat < 256) :
    ∀ p ∈ parse_qsl s,
      (∀ c ∈ p.1, c.toNat < 256) ∧ p.2 ≠ [] ∧ (∀ c ∈ p.2, c.toNat < 256) := by
  intro p hp
  simp only [parse_qsl, List.mem_filterMap] at hp
  obtain ⟨chunk, hchunk, hpc⟩ := hp
  have hsub : ∀ c ∈ chunk, c ∈ s := mem_splitAmp_subset s chunk hchunk
  unfold parsePairChunk at hpc
  by_cases hne : chunk = []
  · rw [if_pos hne] at hpc
    exact absurd hpc (by simp)
  · rw [if_neg hne] at hpc
    rcases hs1 : splitEq1 chunk with _ | ⟨⟨nm, v⟩⟩
    · rw [hs1] at hpc; exact absurd hpc (by simp)
    · rw [hs1] at hpc
      have hpc2 : (if v = [] then none
          else some (unquote_plus nm, unquote_plus v)) = some p := hpc
      by_cases hv : v = []
      · rw [if_pos hv] at hpc2; exact absurd hpc2 (by simp)
      · rw [if_neg hv] at hpc2
        obtain rfl := Option.some.inj hpc2
        obtain ⟨hnm, hvv⟩ := splitEq1_subset chunk nm v hs1
        refine ⟨?_, ?_, ?_⟩
        · exact unquote_plus_chars nm (fun c hc => hs _ (hsub c (hnm c hc)))
        · rcases v with _ | ⟨vc, vs⟩
          · exact absurd rfl hv
          · exact unquote_plus_ne_nil vc vs
        · exact unquote_plus_chars v (fun c hc => hs _ (hsub c (hvv c hc)))

lemma mem_keys_qsAdd {d : List (List Char × List (List Char))} {k v x : List Char}
    (hx : x ∈ (qsAdd d k v).map Prod.fst) : x ∈ d.map Prod.fst ∨ x = k := by
  induction d with
  | nil => exact Or.inr (by simpa [qsAdd] using hx)
  | cons kv d ih =>
    simp only [qsAdd] at hx
    by_cases hk : kv.1 = k
    · rw [if_pos hk] at hx
      simp only [List.map_cons, List.mem_cons] at hx ⊢
      tauto
    · rw [if_neg hk] at hx
      simp only [List.map_cons, List.mem_cons] at hx ⊢
      rcases hx with rfl | hx2
      · tauto
      · rcases ih hx2 with h2 | h2 <;> tauto

lemma qsAdd_QsWF {d : List (List Char × List (List Char))} {k v : List Char}
    (h : QsWF d) (hk : ∀ c ∈ k, c.toNat < 256) (hv : v ≠ [])
    (hvc : ∀ c ∈ v, c.toNat < 256) : QsWF (qsAdd d k v) := by
  induction d with
  | nil =>
    refine ⟨by simp [qsAdd], ?_⟩
    intro kv hkv
    simp [qsAdd] at hkv
    subst hkv
    refine ⟨hk, by simp, ?_⟩
    intro x hx
    simp at hx
    subst hx
    exact ⟨hv, hvc⟩
  | cons kv d ih =>
    obtain ⟨hnd, hmem⟩ := h
    simp only [List.map_cons, List.nodup_cons] at hnd
    simp only [qsAdd]
    by_cases hkk : kv.1 = k
    · rw [if_pos hkk]
      refine ⟨?_, ?_⟩
      · simpa using hnd
      · intro kv2 hkv2
        rcases List.mem_cons.mp hkv2 with rfl | h2
        · obtain ⟨ha, hb, hc⟩ := hmem kv (by simp)
          refine ⟨ha, by simp, ?_⟩
          intro x hx
          rcases List.mem_append.mp hx with hx2 | hx2
          · exact hc x hx2
          · simp at hx2
            subst hx2
            exact ⟨hv, hvc⟩
        · exact hmem kv2 (by simp [h2])
    · rw [if_neg hkk]
      have hwd : QsWF d := ⟨hnd.2, fun x hx => hmem x (by simp [hx])⟩
      obtain ⟨ih1, ih2⟩ := ih hwd
      refine ⟨?_, ?_⟩
      · simp only [List.map_cons, List.nodup_cons]
        refine ⟨?_, ih1⟩
        intro hcon
        rcases mem_keys_qsAdd hcon with h2 | h2
        · exact hnd.1 h2
        · exact hkk h2
      · intro kv2 hkv2
        rcases List.mem_cons.mp hkv2 with rfl | h2
        · exact hmem kv2 (by simp)
        · exact ih2 kv2 h2

lemma parse_qs_QsWF {s : List Char} (hs : ∀ c ∈ s, c.toNat < 256) : QsWF (parse_qs s) := by
  unfold parse_qs
  have hps := parse_qsl_wf hs
  generalize hL : parse_qsl s = L at hps
  clear hL
  induction L using List.reverseRecOn with
  | nil => exact ⟨by simp, by simp⟩
  | append_singleton L p ih =>
    rw [List.foldl_append]
    obtain ⟨h1, h2, h3⟩ := hps p (by simp)
    exact qsAdd_QsWF (ih (fun q hq => hps q (by simp [hq]))) h1 h2 h3

lemma filter_QsWF {d : List (List Char × List (List Char))}
    (h : QsWF d) (p : List Char × List (List Char) → Bool) : QsWF (d.filter p) := by
  refine ⟨?_, ?_⟩
  · exact List.Nodup.sublist ((List.filter_sublist d).map Prod.fst) h.1
  · exact fun kv hkv => h.2 kv (List.mem_of_mem_filter hkv)

lemma mem_keys_qsSet {d : List (List Char × List (List Char))} {k x : List Char}
    {v : List (List Char)}
    (hx : x ∈ (qsSet d k v).map Prod.fst) : x ∈ d.map Prod.fst ∨ x = k := by
  induction d with
  | nil => exact Or.inr (by simpa [qsSet] using hx)
  | cons kv d ih =>
    simp only [qsSet] at hx
    by_cases hk : kv.1 = k
    · rw [if_pos hk] at hx
      simp only [List.map_cons, List.mem_cons] at hx ⊢
      tauto
    · rw [if_neg hk] at hx
      simp only [List.map_cons, List.mem_cons] at hx ⊢
      rcases hx with rfl | hx2
      · tauto
      · rcases ih hx2 with h2 | h2 <;> tauto

lemma qsSet_QsWF {d : List (List Char × List (List Char))} {k : List Char}
    {v : List (List Char)}
    (h : QsWF d) (hk : ∀ c ∈ k, c.toNat < 256) (hv : v ≠ [])
    (hvc : ∀ x ∈ v, x ≠ [] ∧ ∀ c ∈ x, c.toNat < 256) : QsWF (qsSet d k v) := by
  induction d with
  | nil =>
    refine ⟨by simp [qsSet], ?_⟩
    intro kv hkv
    simp [qsSet] at hkv
    subst hkv
    exact ⟨hk, hv, hvc⟩
  | cons kv d ih =>
    obtain ⟨hnd, hmem⟩ := h
    simp only [List.map_cons, List.nodup_cons] at hnd
    simp only [qsSet]
    by_cases hkk : kv.1 = k
    · rw [if_pos hkk]
      refine ⟨?_, ?_⟩
      · simp only [List.map_cons, List.nodup_cons]
        exact ⟨hkk ▸ hnd.1, hnd.2⟩
      · intro kv2 hkv2
        rcases List.mem_cons.mp hkv2 with rfl | h2
        · exact ⟨hk, hv, hvc⟩
        · exact hmem kv2 (by simp [h2])
    · rw [if_neg hkk]
      have hwd : QsWF d := ⟨hnd.2, fun x hx => hmem x (by simp [hx])⟩
      obtain ⟨ih1, ih2⟩ := ih hwd
      refine ⟨?_, ?_⟩
      · simp only [List.map_cons, List.nodup_cons]
        refine ⟨?_, ih1⟩
        intro hcon
        rcases mem_keys_qsSet hcon with h2 | h2
        · exact hnd.1 h2
        · exact hkk h2
      · intro kv2 hkv2
        rcases List.mem_cons.mp hkv2 with rfl | h2
        · exact hmem kv2 (by simp)
        · exact ih2 kv2 h2

lemma filter_qsSet (d : List (List Char × List (List Char))) (k : List Char)
    (v : List (List Char)) :
    (qsSet d k v).filter (fun kv => ¬ kv.1 = k) = d.filter (fun kv => ¬ kv.1 = k) := by
  induction d with
  | nil => simp [qsSet]
  | cons kv d ih =>
    simp only [qsSet]
    by_cases hk : kv.1 = k
    · rw [if_pos hk]
      simp [List.filter_cons, hk]
    · rw [if_neg hk]
      simp only [decide_not] at ih
      simp [List.filter_cons, hk, ih]

lemma digitChar_toNat_lt (k : Nat) : (digitChar k).toNat < 256 := by
  unfold digitChar
  split_ifs <;> decide

lemma natStrAux_ne_nil : ∀ (n : Nat) (acc : List Char), natStrAux n acc ≠ [] := by
  intro n
  induction n using Nat.strong_induction_on with
  | _ n ih =>
    intro acc
    rw [natStrAux]
    split
    · simp
    · rename_i hn
      exact ih (n / 10) (Nat.div_lt_self (by omega) (by omega)) _

lemma natStrAux_chars :
    ∀ (n : Nat) (acc : List Char), (∀ c ∈ acc, c.toNat < 256) →
      ∀ c ∈ natStrAux n acc, c.toNat < 256 := by
  intro n
  induction n using Nat.strong_induction_on with
  | _ n ih =>
    intro acc hacc c hc
    rw [natStrAux] at hc
    split at hc
    · rcases List.mem_cons.mp hc with rfl | hc2
      · exact digitChar_toNat_lt _
      · exact hacc c hc2
    · rename_i hn
      refine ih (n / 10) (Nat.div_lt_self (by omega) (by omega)) _ ?_ c hc
      intro x hx
      rcases List.mem_cons.mp hx with rfl | hx2
      · exact digitChar_toNat_lt _
      · exact hacc x hx2

lemma natStr_ne_nil (n : Nat) : natStr n ≠ [] := natStrAux_ne_nil n []

lemma natStr_chars (n : Nat) : ∀ c ∈ natStr n, c.toNat < 256 :=
  natStrAux_chars n [] (by simp)

/-- **C9** `get_clean_base_url` strips the `pn` parameter while preserving all
other query parameters, and is idempotent: for every URL whose query consists
of single-byte characters (the model's faithful scope) and every page number,
cleaning `build_pagination_url u n` leaves no `pn` key and gives the same URL
as cleaning `u` directly, and cleaning twice equals cleaning once. -/
theorem claim_C9 (u : Url) (n : Nat) (hq : ∀ c ∈ u.query, c.toNat < 256) :
    (∀ kv ∈ parse_qs ((get_clean_base_url (build_pagination_url u n)).query), kv.1 ≠ pnKey) ∧
    get_clean_base_url (build_pagination_url u n) = get_clean_base_url u ∧
    get_clean_base_url (get_clean_base_url u) = get_clean_base_url u := by
  have hwf : QsWF (parse_qs u.query) := parse_qs_QsWF hq
  have hwf2 : QsWF (qsSet (parse_qs u.query) pnKey [natStr n]) := by
    refine qsSet_QsWF hwf (by decide) (by simp) ?_
    intro x hx
    simp at hx
    subst hx
    exact ⟨natStr_ne_nil n, natStr_chars n⟩
  have hwff : QsWF ((parse_qs u.query).filter (fun kv => ¬ kv.1 = pnKey)) :=
    filter_QsWF hwf _
  -- build then clean agrees with clean
  have heq : get_clean_base_url (build_pagination_url u n) = get_clean_base_url u := by
    unfold get_clean_base_url build_pagination_url
    simp only [parse_qs_urlencode hwf2]
    rw [filter_qsSet]
  -- idempotence
  have hfix : ((parse_qs u.query).filter (fun kv => ¬ kv.1 = pnKey)).filter
      (fun kv => ¬ kv.1 = pnKey)
      = (parse_qs u.query).filter (fun kv => ¬ kv.1 = pnKey) := by
    rw [List.filter_filter]
    simp [Bool.and_self]
  have hidem : get_clean_base_url (get_clean_base_url u) = get_clean_base_url u := by
    unfold get_clean_base_url
    simp only [parse_qs_urlencode hwff]
    rw [hfix]
  refine ⟨?_, heq, hidem⟩
  rw [heq]
  unfold get_clean_base_url
  simp only [parse_qs_urlencode hwff]
  intro kv hkv
  have := List.of_mem_filter hkv
  simpa using this

/-- Witness for C9 at the concrete URL `u9` and page number 5. -/
theorem claim_C9_witness :
    get_clean_base_url (build_pagination_url u9 5) = get_clean_base_url u9 ∧
    get_clean_base_url (get_clean_base_url u9) = get_clean_base_url u9 :=
  ⟨(claim_C9 u9 5 (by decide)).2.1, (claim_C9 u9 5 (by decide)).2.2⟩
